import Mathlib

/-!
Verification development for the javdb-python scraper (src/main.py).

The HTML parse tree, the HTTP transport and the regular-expression engine are
external collaborators of the program; they are modelled here at their
interface boundary, as the specification prescribes.  Every definition below
is a shallow embedding of a function or code block of src/main.py (line
numbers cited in the doc comments), except for the definitions explicitly
marked as modelled from the spec.  Character classes of Python regular
expressions (\s, \d, \w) are modelled on their ASCII parts, which is the
universe the scraped site's markup uses.
-/

namespace Javdb

/-- Models Python's whitespace class (the ASCII part of str.strip() / regex \s). -/
def isPySpace (c : Char) : Bool :=
  c = ' ' || c = '\t' || c = '\n' || c = '\r' || c = '\x0b' || c = '\x0c'

/-- Drops the characters satisfying p from both ends of a character list;
models Python str.strip(chars). -/
def stripByL (p : Char → Bool) (l : List Char) : List Char :=
  (l.dropWhile p).rdropWhile p

/-- Models Python str.strip() with no argument on the underlying characters. -/
def pyStripL (l : List Char) : List Char :=
  stripByL isPySpace l

/-- Models Python str.strip() on strings. -/
def pyStrip (s : String) : String :=
  ⟨pyStripL s.data⟩

/-- Truthiness of an optional string, as Python evaluates `x` in a condition:
None and the empty string are falsy. -/
def truthyO : Option String → Bool
  | none => false
  | some s => s ≠ ""

/-- Models the Python expression `a or b` on optional strings. -/
def pyOrS (a b : Option String) : Option String :=
  if truthyO a then a else b

/-- Characters rejected by safe_filename (src/main.py line 62): \ / : * ? " < > | . -/
def isInvalidFileChar (c : Char) : Bool :=
  c = '\\' || c = '/' || c = ':' || c = '*' || c = '?' || c = '"' || c = '<' || c = '>' || c = '|'

/-- Replaces every maximal run of characters satisfying p by the single
character r; models re.sub with a pattern of the form [class]+.  The Boolean
argument records whether the previous character belonged to a run. -/
def replaceRunsAux (p : Char → Bool) (r : Char) : List Char → Bool → List Char
  | [], _ => []
  | c :: rest, inRun =>
    if p c then
      if inRun then replaceRunsAux p r rest true
      else r :: replaceRunsAux p r rest true
    else c :: replaceRunsAux p r rest false

/-- Replaces every maximal run of characters satisfying p by the character r. -/
def replaceRuns (p : Char → Bool) (r : Char) (l : List Char) : List Char :=
  replaceRunsAux p r l false

/-- Models safe_filename (src/main.py lines 59-64): strip, replace runs of
invalid characters with a dash, replace runs of whitespace with an
underscore, truncate to 200 characters. -/
def safe_filename (name : String) : String :=
  ⟨(replaceRuns isPySpace '_' (replaceRuns isInvalidFileChar '-' (pyStripL name.data))).take 200⟩

/-- Modelled from the spec: the XML output projector of the NFO variant is not
part of src/; per section 4.6 the year element is derived from the first 4
characters of releaseDate when releaseDate begins with 4 digits, and omitted
(none) when releaseDate is null or does not begin with 4 digits. -/
def xmlYear : Option String → Option String
  | none => none
  | some rd =>
    match rd.data with
    | a :: b :: c :: d :: _ =>
      if a.isDigit && b.isDigit && c.isDigit && d.isDigit then some ⟨rd.data.take 4⟩ else none
    | _ => none

/-- The metadata record assembled by fetch_movie_metadata, observed through
the dictionary-get boundary used by the rest of the program: each key of the
Python dict meta is an optional string here, absence of the key and the
Python value None both being none. -/
structure Meta where
  title : Option String
  javSeries : Option String
  dvdId : Option String
  contentId : Option String
  releaseDate : Option String
  runtime : Option String
  studio : Option String
  director : Option String
  genres : Option String
  actresses : Option String
deriving DecidableEq, Repr

/-- The record returned when fetching the detail page fails: the Python
function returns the empty dict, so every key reads back as None. -/
def emptyMeta : Meta :=
  { title := none, javSeries := none, dvdId := none, contentId := none,
    releaseDate := none, runtime := none, studio := none, director := none,
    genres := none, actresses := none }

/-- One field of the empty-string-to-null pass (src/main.py lines 342-345):
a present string whose strip() is empty is forced to None. -/
def normField : Option String → Option String
  | none => none
  | some v => if pyStrip v = "" then none else some v

/-- The empty-string-to-null normalization pass over the seven scalar
metadata fields (src/main.py lines 332-345). -/
def normalizeScalars (m : Meta) : Meta :=
  { m with
    javSeries := normField m.javSeries,
    dvdId := normField m.dvdId,
    contentId := normField m.contentId,
    releaseDate := normField m.releaseDate,
    runtime := normField m.runtime,
    studio := normField m.studio,
    director := normField m.director }

theorem dropWhile_dropWhile_self (p : Char → Bool) (l : List Char) :
    (l.dropWhile p).dropWhile p = l.dropWhile p := by
  induction l with
  | nil => rfl
  | cons c rest ih =>
    by_cases h : p c
    · simp [List.dropWhile_cons, h, ih]
    · simp [List.dropWhile_cons, h]

theorem dropWhile_head_false (p : Char → Bool) (l : List Char) (c : Char) (cs : List Char)
    (h : l.dropWhile p = c :: cs) : p c = false := by
  have := List.head?_dropWhile_not p l
  rw [h] at this
  exact this

theorem dropWhile_of_head_false (p : Char → Bool) (c : Char) (cs : List Char)
    (h : p c = false) : (c :: cs).dropWhile p = c :: cs := by
  simp [List.dropWhile_cons, h]

theorem stripByL_idem (p : Char → Bool) (l : List Char) :
    stripByL p (stripByL p l) = stripByL p l := by
  unfold stripByL
  have hr1 : ((l.dropWhile p).rdropWhile p).dropWhile p = (l.dropWhile p).rdropWhile p := by
    cases hc : (l.dropWhile p).rdropWhile p with
    | nil => rfl
    | cons c cs =>
      obtain ⟨t, ht⟩ := List.rdropWhile_prefix p (l.dropWhile p)
      rw [hc] at ht
      have hgc : l.dropWhile p = c :: (cs ++ t) := by rw [← ht]; simp
      exact dropWhile_of_head_false p c cs (dropWhile_head_false p l c (cs ++ t) hgc)
  rw [hr1, List.rdropWhile_idempotent]

theorem pyStripL_idem (l : List Char) : pyStripL (pyStripL l) = pyStripL l :=
  stripByL_idem isPySpace l

theorem pyStrip_idem (s : String) : pyStrip (pyStrip s) = pyStrip s := by
  unfold pyStrip
  simp [pyStripL_idem]

/-- CLAIM C2: the empty-string-to-null normalization pass over the scalar
metadata fields is idempotent, and after one application no scalar field is an
empty or whitespace-only string. -/
theorem C2_normalization_idempotent (m : Meta) :
    normalizeScalars (normalizeScalars m) = normalizeScalars m ∧
    (∀ s, (normalizeScalars m).javSeries = some s → pyStrip s ≠ "") ∧
    (∀ s, (normalizeScalars m).dvdId = some s → pyStrip s ≠ "") ∧
    (∀ s, (normalizeScalars m).contentId = some s → pyStrip s ≠ "") ∧
    (∀ s, (normalizeScalars m).releaseDate = some s → pyStrip s ≠ "") ∧
    (∀ s, (normalizeScalars m).runtime = some s → pyStrip s ≠ "") ∧
    (∀ s, (normalizeScalars m).studio = some s → pyStrip s ≠ "") ∧
    (∀ s, (normalizeScalars m).director = some s → pyStrip s ≠ "") := by
  have hf : ∀ o : Option String, normField (normField o) = normField o := by
    intro o
    cases o with
    | none => rfl
    | some v =>
      by_cases h : pyStrip v = ""
      · simp [normField, h]
      · simp [normField, h]
  have hs : ∀ (o : Option String) (s : String), normField o = some s → pyStrip s ≠ "" := by
    intro o s h
    cases o with
    | none => simp [normField] at h
    | some v =>
      by_cases hv : pyStrip v = ""
      · simp [normField, hv] at h
      · simp [normField, hv] at h
        rw [← h]
        exact hv
  refine ⟨?_, fun s => hs _ s, fun s => hs _ s, fun s => hs _ s, fun s => hs _ s,
    fun s => hs _ s, fun s => hs _ s, fun s => hs _ s⟩
  simp only [normalizeScalars, hf]

/-- Witness for C2 at a concrete record: a whitespace-only runtime is forced
to none and reapplying the pass changes nothing. -/
theorem C2_normalization_idempotent_witness :
    normalizeScalars (normalizeScalars { emptyMeta with runtime := some "  " }) =
      normalizeScalars { emptyMeta with runtime := some "  " } ∧
    ∀ s, (normalizeScalars { emptyMeta with runtime := some "  " }).runtime = some s →
      pyStrip s ≠ "" :=
  ⟨(C2_normalization_idempotent { emptyMeta with runtime := some "  " }).1,
   (C2_normalization_idempotent { emptyMeta with runtime := some "  " }).2.2.2.2.2.1⟩

theorem mem_replaceRunsAux (p : Char → Bool) (r : Char) (l : List Char) (b : Bool) :
    ∀ c ∈ replaceRunsAux p r l b, (c ∈ l ∧ p c = false) ∨ c = r := by
  induction l generalizing b with
  | nil => intro c hc; simp [replaceRunsAux] at hc
  | cons a rest ih =>
    intro c hc
    by_cases hp : p a
    · by_cases hb : b
      · simp only [replaceRunsAux, hp, if_pos, hb, if_true] at hc
        rcases ih true c hc with ⟨h1, h2⟩ | h3
        · exact Or.inl ⟨List.mem_cons_of_mem a h1, h2⟩
        · exact Or.inr h3
      · simp only [replaceRunsAux, hp, if_pos, hb, if_false, Bool.false_eq_true] at hc
        rcases List.mem_cons.mp hc with h | h
        · exact Or.inr h
        · rcases ih true c h with ⟨h1, h2⟩ | h3
          · exact Or.inl ⟨List.mem_cons_of_mem a h1, h2⟩
          · exact Or.inr h3
    · simp only [replaceRunsAux, hp, if_neg, Bool.false_eq_true, if_false] at hc
      rcases List.mem_cons.mp hc with h | h
      · subst h
        exact Or.inl ⟨List.mem_cons_self _ _, by simpa using hp⟩
      · rcases ih false c h with ⟨h1, h2⟩ | h3
        · exact Or.inl ⟨List.mem_cons_of_mem a h1, h2⟩
        · exact Or.inr h3

/-- CLAIM C8: safe_filename returns a string with none of the characters
\ / : * ? " < > | , no whitespace characters, and length at most 200. -/
theorem C8_safe_filename_clean (s : String) :
    (∀ c ∈ (safe_filename s).data, isInvalidFileChar c = false) ∧
    (∀ c ∈ (safe_filename s).data, isPySpace c = false) ∧
    (safe_filename s).length ≤ 200 := by
  refine ⟨?_, ?_, ?_⟩
  · intro c hc
    have hc2 : c ∈ replaceRuns isPySpace '_' (replaceRuns isInvalidFileChar '-' (pyStripL s.data)) :=
      List.mem_of_mem_take hc
    rcases mem_replaceRunsAux isPySpace '_' _ false c hc2 with ⟨h1, _⟩ | h3
    · rcases mem_replaceRunsAux isInvalidFileChar '-' _ false c h1 with ⟨_, h2⟩ | h4
      · exact h2
      · subst h4; decide
    · subst h3; decide
  · intro c hc
    have hc2 : c ∈ replaceRuns isPySpace '_' (replaceRuns isInvalidFileChar '-' (pyStripL s.data)) :=
      List.mem_of_mem_take hc
    rcases mem_replaceRunsAux isPySpace '_' _ false c hc2 with ⟨_, h2⟩ | h3
    · exact h2
    · subst h3; decide
  · show (safe_filename s).data.length ≤ 200
    simp [safe_filename]

/-- CLAIM C9: in the XML projection, releaseDate 2023-05-01 yields year 2023,
and a null releaseDate omits the year element. -/
theorem C9_xml_year_derivation :
    xmlYear (some "2023-05-01") = some "2023" ∧ xmlYear none = none := by
  constructor
  · rfl
  · rfl

/-- Case-insensitive test that pat is an initial segment of cs; Char.toLower
models Python lowercasing on the ASCII letters. -/
def startsWithCI : List Char → List Char → Bool
  | _, [] => true
  | [], _ :: _ => false
  | c :: cs, p :: ps => (c.toLower == p.toLower) && startsWithCI cs ps

/-- Leftmost case-insensitive occurrence of pat in cs, returning the suffix
after the occurrence; models re.search for a literal pattern with re.I,
exposing where the rest of the pattern continues. -/
def findSuffCI (pat : List Char) : List Char → Option (List Char)
  | [] => if startsWithCI [] pat then some [] else none
  | c :: rest =>
    if startsWithCI (c :: rest) pat then some ((c :: rest).drop pat.length)
    else findSuffCI pat rest

/-- Models the Python test `pat.lower() in hay.lower()`. -/
def containsCI (hay pat : String) : Bool :=
  (findSuffCI pat.data hay.data).isSome

/-- Case-sensitive initial-segment test. -/
def startsWithL : List Char → List Char → Bool
  | _, [] => true
  | [], _ :: _ => false
  | c :: cs, p :: ps => (c == p) && startsWithL cs ps

/-- Case-sensitive substring test on character lists; models Python `pat in hay`. -/
def containsSubL (pat : List Char) : List Char → Bool
  | [] => startsWithL [] pat
  | c :: rest => startsWithL (c :: rest) pat || containsSubL pat rest

/-- The separator class of re.split(r"[,/|•;]+", s) (src/main.py lines 287, 323, 382). -/
def isSepChar (c : Char) : Bool :=
  c = ',' || c = '/' || c = '|' || c = '•' || c = ';'

/-- Splits a character list at every maximal run of characters satisfying p,
the runs themselves being discarded; models re.split with a pattern of the
form [class]+.  cur accumulates the current piece reversed; inRun records
whether the previous character belonged to a separator run. -/
def splitRunsAux (p : Char → Bool) : List Char → List Char → Bool → List (List Char)
  | [], cur, _ => [cur.reverse]
  | c :: rest, cur, inRun =>
    if p c then
      if inRun then splitRunsAux p rest [] true
      else cur.reverse :: splitRunsAux p rest [] true
    else splitRunsAux p rest (c :: cur) false

/-- Splits at maximal runs of characters satisfying p (re.split on [class]+). -/
def splitRuns (p : Char → Bool) (l : List Char) : List (List Char) :=
  splitRunsAux p l [] false

/-- Emits a pending whitespace run: runs of two or more characters collapse
to one space, shorter runs are kept verbatim (the run is accumulated reversed). -/
def flushWs (pend : List Char) : List Char :=
  if 2 ≤ pend.length then [' '] else pend.reverse

/-- Models re.sub(r"\s{2,}", " ", val) (src/main.py line 240): every run of
two or more whitespace characters becomes a single space, single whitespace
characters stay as they are. -/
def collapseWsAux : List Char → List Char → List Char
  | [], pend => flushWs pend
  | c :: rest, pend =>
    if isPySpace c then collapseWsAux rest (c :: pend)
    else flushWs pend ++ c :: collapseWsAux rest []

/-- Collapses internal runs of two or more whitespace characters to one space. -/
def collapseWs (l : List Char) : List Char :=
  collapseWsAux l []

/-- Models Python sep.join(parts) on character lists. -/
def joinWithL (sep : List Char) : List (List Char) → List Char
  | [] => []
  | [x] => x
  | x :: y :: rest => x ++ sep ++ joinWithL sep (y :: rest)

/-- Models the expression  quote ", ".join(parts) quote  used for the genre and
actress fields (src/main.py lines 292 and 328-330). -/
def joinCommaSpace (l : List String) : String :=
  ⟨joinWithL [',', ' '] (l.map String.data)⟩

/-- True when the regex fragment \s*(?:\|\||$) matches the whole remainder:
after optional whitespace comes either the two-pipe separator or the end of
the page text. -/
def tailStopsHere (cs : List Char) : Bool :=
  match cs.dropWhile isPySpace with
  | [] => true
  | '|' :: '|' :: _ => true
  | _ => false

/-- The lazy capture (.*?) of the extract_label regex (src/main.py line 233):
the shortest run of characters after which \s*(?:\|\||$) matches. -/
def lazyCaptureTo : List Char → List Char
  | [] => []
  | c :: rest => if tailStopsHere (c :: rest) then [] else c :: lazyCaptureTo rest

/-- The value produced by the extract_label regex once the label pattern has
matched: \s*[:\-–]?\s* is consumed greedily (each greedy or optional item has
a unique viable extent here, as the separator characters are not whitespace),
the lazy capture runs until \s*(?:\|\||$), and the capture is then stripped
and its internal whitespace runs collapsed (src/main.py lines 229-242). -/
def afterLabelValue (rest : List Char) : String :=
  let r1 := rest.dropWhile isPySpace
  let r2 := match r1 with
    | c :: t => if c = ':' || c = '-' || c = '–' then t else r1
    | [] => ([] : List Char)
  ⟨collapseWs (pyStripL (lazyCaptureTo (r2.dropWhile isPySpace)))⟩

/-- Models extract_label (src/main.py lines 229-242): for each label pattern
in priority order, search the page text case-insensitively; the tail of the
regex always matches once the literal label occurs, so the first pattern that
occurs yields the value captured after its leftmost occurrence. -/
def extract_label (pagetext : String) (pats : List String) : Option String :=
  pats.findSome? (fun pat => (findSuffCI pat.data pagetext.data).map afterLabelValue)

/-- An anchor element as the program reads it: an optional href attribute and
the raw text content; a.get_text(strip=True) is modelled as pyStrip of the
raw text (the parse tree is an external collaborator). -/
structure Anchor where
  href : Option String
  text : String
deriving DecidableEq, Repr

/-- A node following the bold label inside a labeled block, as walked by
labeled_value (src/main.py lines 200-212): either a bare string node or an
element whose text is read with get_text(strip=True). -/
inductive SibNode
  | str (s : String)
  | elem (t : String)
deriving DecidableEq, Repr

/-- A block-level element (p, div or li) as find_all iterates them
(src/main.py line 191): the raw text of its first bold child when present,
its anchors in document order, and the nodes following the bold child. -/
structure Block where
  bold : Option String
  anchors : List Anchor
  afterBold : List SibNode
deriving DecidableEq, Repr

/-- The parsed detail-page document at the interface boundary used by
fetch_movie_metadata: the first h1-like element's raw text, the content of a
meta og:title tag carrying a content attribute, the block-level elements, the
anchors matched by the generic genre selectors, all anchors of the document,
and the document's text segments from which get_text builds the flattened
page texts. -/
structure Doc where
  h1 : Option String
  ogTitle : Option String
  blocks : List Block
  tagAnchors : List Anchor
  allAnchors : List Anchor
  textSegments : List String
deriving DecidableEq, Repr

/-- get_text(sep, strip=True) joins the stripped text segments, dropping the
ones that strip to nothing. -/
def strippedSegs (d : Doc) : List String :=
  (d.textSegments.map pyStrip).filter (fun s => s ≠ "")

/-- Models s.get_text(with two pipes, strip=True) (src/main.py line 187). -/
def pageText (d : Doc) : String :=
  ⟨joinWithL ['|', '|'] ((strippedSegs d).map String.data)⟩

/-- Models s.get_text(with a space, strip=True) (src/main.py line 356). -/
def pageAllText (d : Doc) : String :=
  ⟨joinWithL [' '] ((strippedSegs d).map String.data)⟩

/-- The text a sibling node contributes in the labeled_value walk: a string
node is stripped of spaces, colons and newlines, an element node is read with
get_text(strip=True) (src/main.py lines 203-211). -/
def sibText : SibNode → String
  | .str s => ⟨stripByL (fun c => c = ' ' || c = ':' || c = '\n' || c = '\t') s.data⟩
  | .elem t => pyStrip t

/-- The walk over the nodes after the bold label, returning the first
non-empty contribution (src/main.py lines 201-212). -/
def sibWalk : List SibNode → Option String
  | [] => none
  | n :: rest =>
    if sibText n ≠ "" then some (sibText n) else sibWalk rest

/-- The value one labeled block yields (src/main.py lines 191-213): when the
block's bold text contains the label case-insensitively, the first anchor's
stripped text if non-empty, else the first non-empty sibling contribution. -/
def blockLabeledValue (label : String) (p : Block) : Option String :=
  match p.bold with
  | none => none
  | some b =>
    if containsCI (pyStrip b) label then
      match p.anchors with
      | a :: _ =>
        if pyStrip a.text ≠ "" then some (pyStrip a.text) else sibWalk p.afterBold
      | [] => sibWalk p.afterBold
    else none

/-- Models labeled_value (src/main.py lines 189-213): the first block that
yields a value wins. -/
def labeled_value (d : Doc) (label : String) : Option String :=
  d.blocks.findSome? (blockLabeledValue label)

/-- Whether a block's bold text matches the label (src/main.py line 221). -/
def blockMatches (label : String) (p : Block) : Bool :=
  match p.bold with
  | none => false
  | some b => containsCI (pyStrip b) label

/-- Models labeled_values (src/main.py lines 215-227): over every block whose
bold text contains the label, collect the non-empty stripped anchor texts. -/
def labeled_values (d : Doc) (label : String) : List String :=
  (d.blocks.filter (blockMatches label)).flatMap
    (fun p => (p.anchors.map (fun a => pyStrip a.text)).filter (fun t => t ≠ ""))

/-- Splitting of a regex-extracted joined string into cleaned parts
(src/main.py lines 287-290 and 323-326): split on separator runs, strip each
part, keep the non-empty ones. -/
def splitParts (g : String) : List String :=
  (((splitRuns isSepChar g.data).map pyStripL).filter (fun p => p ≠ [])).map
    (fun p => (⟨p⟩ : String))

/-- Tier 1 of the genre cascade (src/main.py lines 270-274). -/
def genreTier1 (d : Doc) : List String :=
  (labeled_values d "Genre(s)").filter (fun g => g ≠ "")

/-- Tier 2 of the genre cascade, the generic tag selectors
(src/main.py lines 277-281). -/
def genreTier2 (d : Doc) : List String :=
  (d.tagAnchors.map (fun a => pyStrip a.text)).filter (fun t => t ≠ "")

/-- Tier 3 of the genre cascade, regex extraction then splitting
(src/main.py lines 284-290). -/
def genreTier3 (d : Doc) : List String :=
  match extract_label (pageText d) ["Genre(s)", "Genres", "Genre"] with
  | none => []
  | some g => if g ≠ "" then splitParts g else []

/-- The elements added to the genre set, tier by tier: a later tier runs only
when the set is still empty (src/main.py lines 270-290). -/
def genreCandidates (d : Doc) : List String :=
  if genreTier1 d ≠ [] then genreTier1 d
  else if genreTier2 d ≠ [] then genreTier2 d
  else genreTier3 d

/-- Models sorted(set(xs)) for strings: the lexicographically sorted
enumeration of the distinct elements. -/
def sortedDedup (l : List String) : List String :=
  List.insertionSort (fun a b => a ≤ b) l.dedup

/-- The ordered genre tokens whose comma-space join the program emits
(src/main.py line 292). -/
def genreTokens (d : Doc) : List String :=
  sortedDedup (genreCandidates d)

/-- Tier 1 of the actress cascade (src/main.py lines 295-300). -/
def actressTier1 (d : Doc) : List String :=
  (labeled_values d "Idol(s)/Actress(es)").filter (fun g => g ≠ "")

/-- Whether an anchor's href points at a cast-profile page
(src/main.py lines 305-311). -/
def hrefHasPeoplePath (h : String) : Bool :=
  containsSubL "/actresses/".data h.data || containsSubL "/actors/".data h.data ||
  containsSubL "/stars/".data h.data || containsSubL "/people/".data h.data

/-- Tier 2 of the actress cascade, generic link extraction over all anchors
(src/main.py lines 303-314); a missing href reads back as the empty string. -/
def actressTier2 (d : Doc) : List String :=
  ((d.allAnchors.filter (fun a => hrefHasPeoplePath (a.href.getD ""))).map
    (fun a => pyStrip a.text)).filter (fun t => t ≠ "")

/-- Tier 3 of the actress cascade (src/main.py lines 317-326). -/
def actressTier3 (d : Doc) : List String :=
  match extract_label (pageText d) ["Idol(s)/Actress(es)", "Actress(es)", "Idol(s)"] with
  | none => []
  | some g => if g ≠ "" then splitParts g else []

/-- The elements added to the actress set, tier by tier
(src/main.py lines 295-326). -/
def actressCandidates (d : Doc) : List String :=
  if actressTier1 d ≠ [] then actressTier1 d
  else if actressTier2 d ≠ [] then actressTier2 d
  else actressTier3 d

/-- The ordered actress tokens whose comma-space join the program emits
(src/main.py lines 328-330). -/
def actressTokens (d : Doc) : List String :=
  sortedDedup (actressCandidates d)

/-- The og:title / fallback part of title resolution (src/main.py lines
179-184): the meta tag is selected with a content-attribute requirement, so
when it is present its content is taken, else the fallback title captured
during search-result selection. -/
def resolveTitleOg (d : Doc) (fb : Option String) : Option String :=
  match d.ogTitle with
  | some c => some c
  | none => fb

/-- Models title resolution (src/main.py lines 174-184): the stripped text of
the first h1-like element when non-empty, else the og:title content, else the
fallback title. -/
def resolveTitle (d : Doc) (fb : Option String) : Option String :=
  match d.h1 with
  | some t => if pyStrip t ≠ "" then some (pyStrip t) else resolveTitleOg d fb
  | none => resolveTitleOg d fb

/-- One scalar field of the cascade: labeled_value, else (Python or)
extract_label over the flattened page text (src/main.py lines 244-267). -/
def metaField (d : Doc) (label : String) (pats : List String) : Option String :=
  pyOrS (labeled_value d label) (extract_label (pageText d) pats)

/-- The metadata record as assembled before the normalization passes
(src/main.py lines 172-330), with each field's label and pattern synonyms in
the program's priority order. -/
def rawMeta (d : Doc) (fb : Option String) : Meta :=
  { title := resolveTitle d fb,
    javSeries := metaField d "JAV Series" ["JAV Series", "Series"],
    dvdId := metaField d "DVD ID" ["DVD ID", "DVD", "DVD-ID"],
    contentId := metaField d "Content ID" ["Content ID", "Content-ID", "Content"],
    releaseDate := metaField d "Release Date" ["Release Date", "Released", "Date"],
    runtime := metaField d "Runtime" ["Runtime", "Running Time", "Length"],
    studio := metaField d "Studio" ["Studio", "Label"],
    director := metaField d "Director" ["Director", "Directed by"],
    genres := if genreCandidates d = [] then none else some (joinCommaSpace (genreTokens d)),
    actresses :=
      if actressCandidates d = [] then none else some (joinCommaSpace (actressTokens d)) }

/-- The genre-string cleanup (src/main.py lines 348-353): a truthy genre
string that strips to nothing is forced to None. -/
def normalizeGenres (m : Meta) : Meta :=
  match m.genres with
  | some g => if g ≠ "" ∧ pyStrip g = "" then { m with genres := none } else m
  | none => m

/-- The ASCII part of the regex word class \w, used by the word-boundary
assertions of the ID fallback patterns. -/
def isWordChar (c : Char) : Bool :=
  c.isAlpha || c.isDigit || c = '_'

/-- Whether the trailing word-boundary assertion holds at this remainder when
the match ends on a word character: the remainder is empty or starts with a
non-word character. -/
def boundaryAfter (cs : List Char) : Bool :=
  match cs with
  | [] => true
  | c :: _ => !isWordChar c

/-- The numeric tail of the DVD ID fallback regex (src/main.py line 359),
the fragment \d followed by braces 2-or-more, an optional dash, \d once or
more, and a trailing word boundary, with Python backtracking: the maximal
digit run, the dash-and-more-digits continuation when it completes, else the
digit run alone (which needs at least 3 digits, the two quantifiers then
splitting it), subject to the boundary. -/
def dvdNumTail (cs : List Char) : Option (List Char) :=
  let D := cs.takeWhile Char.isDigit
  if D.length < 2 then none
  else
    match cs.drop D.length with
    | '-' :: r2 =>
      let E := r2.takeWhile Char.isDigit
      if 1 ≤ E.length && boundaryAfter (r2.drop E.length) then some (D ++ '-' :: E)
      else if 3 ≤ D.length then some D
      else none
    | rest =>
      if 3 ≤ D.length && boundaryAfter rest then some D
      else none

/-- The DVD ID fallback pattern matched at a position: two or more uppercase
letters, an optional dash, then the numeric tail (src/main.py line 359). -/
def dvdMatchAt (cs : List Char) : Option (List Char) :=
  let L := cs.takeWhile (fun c => 'A' ≤ c && c ≤ 'Z')
  if L.length < 2 then none
  else
    match cs.drop L.length with
    | '-' :: r2 => (dvdNumTail r2).map (fun m => L ++ '-' :: m)
    | rest => (dvdNumTail rest).map (fun m => L ++ m)

/-- The Content ID fallback pattern (src/main.py line 364) matched at a
position: the pattern bracket a-z bracket with count 2-or-more then \d with
count 4-or-more is compiled with re.I, so the letter class matches both
cases; a trailing word boundary must follow. -/
def contentMatchAt (cs : List Char) : Option (List Char) :=
  let L := cs.takeWhile Char.isAlpha
  if L.length < 2 then none
  else
    let D := (cs.drop L.length).takeWhile Char.isDigit
    if D.length < 4 then none
    else if boundaryAfter (cs.drop (L.length + D.length)) then some (L ++ D)
    else none

/-- Whether the leading word-boundary assertion can hold at a position whose
pattern starts with a word character: the previous character is absent or a
non-word character. -/
def startOk : Option Char → Bool
  | none => true
  | some q => !isWordChar q

/-- re.search: scan start positions left to right; both fallback patterns
begin with a word character behind a word-boundary assertion, so a start is
viable only when the previous character is absent or a non-word character. -/
def searchWithAux (matchAt : List Char → Option (List Char)) :
    List Char → Option Char → Option (List Char)
  | [], _ => none
  | c :: rest, prev =>
    match (if startOk prev then matchAt (c :: rest) else none) with
    | some m => some m
    | none => searchWithAux matchAt rest (some c)

/-- The DVD ID fallback search over the flattened page text
(src/main.py lines 358-361). -/
def dvdSearch (s : String) : Option String :=
  (searchWithAux dvdMatchAt s.data none).map (fun m => (⟨m⟩ : String))

/-- The Content ID fallback search over the flattened page text
(src/main.py lines 363-366). -/
def contentSearch (s : String) : Option String :=
  (searchWithAux contentMatchAt s.data none).map (fun m => (⟨m⟩ : String))

/-- The schema-specific tier-3 fallbacks (src/main.py lines 355-366): each ID
still falsy after the earlier tiers and normalization is searched for in the
space-flattened page text, the record being left unchanged when the search
fails. -/
def applyIdFallbacks (d : Doc) (m : Meta) : Meta :=
  let m1 :=
    if truthyO m.dvdId then m
    else
      match dvdSearch (pageAllText d) with
      | some v => { m with dvdId := some v }
      | none => m
  if truthyO m1.contentId then m1
  else
    match contentSearch (pageAllText d) with
    | some v => { m1 with contentId := some v }
    | none => m1

/-- The full metadata assembly on a successfully fetched document
(src/main.py lines 171-368). -/
def buildMeta (d : Doc) (fb : Option String) : Meta :=
  applyIdFallbacks d (normalizeGenres (normalizeScalars (rawMeta d fb)))

/-- A network-level fetch failure: the connection errors and timeouts raised
by the HTTP collaborator. -/
inductive NetFail
  | connError
  | timeout
deriving DecidableEq, Repr

/-- The outcome of a GET at the HTTP interface boundary: an exception, or a
response with a status code and parsed document body. -/
inductive HttpResp (α : Type)
  | fail (e : NetFail)
  | ok (status : Nat) (doc : α)
deriving DecidableEq, Repr

/-- Models requests.get followed by raise_for_status at the interface
boundary the spec fixes for the HTTP collaborator: connection errors and
timeouts raise, and a non-2xx status is treated as failure and raises. -/
def getResponse {α : Type} : HttpResp α → Except String α
  | .fail .connError => .error "connection error"
  | .fail .timeout => .error "timeout"
  | .ok st doc => if 200 ≤ st ∧ st < 300 then .ok doc else .error "http status error"

/-- A gallery anchor matched by the selector a[data-image-src]: the selector
requires the data-image-src attribute, data-image-href and a nested img src
are optional (src/main.py lines 136-154). -/
structure GAnchor where
  dataImageSrc : String
  dataImageHref : Option String
  imgSrc : Option String
deriving DecidableEq, Repr

/-- The detail page as fetch_preview_images reads it: the gallery container
when one of the two gallery selectors matches (holding its data-image-src
anchors), and the document-wide data-image-src anchors used otherwise. -/
structure PrevDoc where
  gallery : Option (List GAnchor)
  docAnchors : List GAnchor
deriving DecidableEq, Repr

/-- A located preview image entry (src/main.py lines 146-154). -/
structure PreviewImage where
  preview : Option String
  full : Option String
  img : Option String
deriving DecidableEq, Repr

/-- The image-entry extraction of fetch_preview_images on a fetched document
(src/main.py lines 135-155). -/
def locatePreviews (d : PrevDoc) : List PreviewImage :=
  (match d.gallery with
   | some gAnchors => gAnchors
   | none => d.docAnchors).map
    (fun (a : GAnchor) =>
      { preview := some a.dataImageSrc, full := a.dataImageHref, img := a.imgSrc })

/-- Models fetch_preview_images (src/main.py lines 126-155): any fetch
failure is caught and yields the empty list. -/
def fetch_preview_images (r : HttpResp PrevDoc) : List PreviewImage :=
  match getResponse r with
  | .error _ => []
  | .ok d => locatePreviews d

/-- Models fetch_movie_metadata (src/main.py lines 162-368): any fetch
failure is caught and yields the empty record. -/
def fetch_movie_metadata (r : HttpResp Doc) (fb : Option String) : Meta :=
  match getResponse r with
  | .error _ => emptyMeta
  | .ok d => buildMeta d fb

/-- A result card of the search page as fetch_search reads it
(src/main.py lines 22-44): the optional code anchor (with its optional href),
the optional description anchor's raw text, the joined text of the
description container, and the optional studio anchor's raw text. -/
structure Card where
  codeAnchor : Option Anchor
  descAnchor : Option String
  mtAutoText : Option String
  studioAnchor : Option String
deriving DecidableEq, Repr

/-- One parsed search result (src/main.py lines 46-54). -/
structure SearchResult where
  code : Option String
  title : Option String
  link : Option String
  date : Option String
  studio : Option String
deriving DecidableEq, Repr

/-- The date pattern \d\d\d\d-\d\d-\d\d matched at a position
(src/main.py line 38). -/
def matchDateAt (cs : List Char) : Option (List Char) :=
  match cs with
  | y1 :: y2 :: y3 :: y4 :: s1 :: m1 :: m2 :: s2 :: d1 :: d2 :: _ =>
    if y1.isDigit && y2.isDigit && y3.isDigit && y4.isDigit && s1 = '-' &&
       m1.isDigit && m2.isDigit && s2 = '-' && d1.isDigit && d2.isDigit then
      some [y1, y2, y3, y4, s1, m1, m2, s2, d1, d2]
    else none
  | _ => none

/-- re.search for the date pattern: leftmost match. -/
def searchDate : List Char → Option String
  | [] => none
  | c :: rest =>
    match matchDateAt (c :: rest) with
    | some m => some ⟨m⟩
    | none => searchDate rest

/-- The per-card extraction of fetch_search (src/main.py lines 22-54): every
absent sub-element yields none for its field. -/
def parseCard (c : Card) : SearchResult :=
  { code := c.codeAnchor.map (fun a => pyStrip a.text),
    title := c.descAnchor.map pyStrip,
    link := c.codeAnchor.bind (fun a => a.href),
    date := c.mtAutoText.bind (fun t => searchDate t.data),
    studio := c.studioAnchor.map pyStrip }

/-- The card loop of fetch_search (src/main.py lines 19-56): one result per
card, in document order. -/
def parseSearchCards (cards : List Card) : List SearchResult :=
  cards.map parseCard

/-- Models to_list (src/main.py lines 374-384) on the string-or-None values
the program passes it: a falsy value yields the empty list, a non-empty
string is split on separator runs into stripped non-empty parts. -/
def to_list : Option String → List String
  | none => []
  | some s => if s = "" then [] else splitParts s

/-- The preview-image projection of the JSON output (src/main.py lines
398-402): for each entry, full or-else preview in the Python truthiness
sense, entries where the disjunction is falsy being dropped. -/
def previewImagesProj (imgs : List PreviewImage) : List String :=
  imgs.filterMap (fun im =>
    match pyOrS im.full im.preview with
    | some s => if s ≠ "" then some s else none
    | none => none)

/-- CLAIM C7: a failed detail-page fetch (connection error, timeout, or
non-success status at the raise-for-status boundary the spec fixes as
non-2xx) is caught at the call site: the preview-image locator returns the
empty sequence and the metadata fetch returns the empty record; totality of
both functions models that no exception reaches the caller. -/
theorem C7_fetch_failure_downgraded :
    (∀ (e : NetFail) (fb : Option String),
      fetch_preview_images (HttpResp.fail e) = [] ∧
      fetch_movie_metadata (HttpResp.fail e) fb = emptyMeta) ∧
    (∀ (st : Nat) (pd : PrevDoc) (d : Doc) (fb : Option String),
      ¬(200 ≤ st ∧ st < 300) →
      fetch_preview_images (HttpResp.ok st pd) = [] ∧
      fetch_movie_metadata (HttpResp.ok st d) fb = emptyMeta) := by
  constructor
  · intro e fb
    cases e with
    | connError => exact ⟨rfl, rfl⟩
    | timeout => exact ⟨rfl, rfl⟩
  · intro st pd d fb h
    constructor
    · simp [fetch_preview_images, getResponse, h]
    · simp [fetch_movie_metadata, getResponse, h]

/-- Witness for C7 at a concrete non-2xx status. -/
theorem C7_fetch_failure_downgraded_witness :
    ¬(200 ≤ 404 ∧ 404 < 300) ∧
    (fetch_preview_images (HttpResp.ok 404 ⟨none, []⟩) = [] ∧
      fetch_movie_metadata
        (HttpResp.ok 404 ⟨none, none, [], [], [], []⟩) none = emptyMeta) :=
  ⟨by decide,
   ⟨(C7_fetch_failure_downgraded.2 404 ⟨none, []⟩ ⟨none, none, [], [], [], []⟩ none
      (by decide)).1,
    (C7_fetch_failure_downgraded.2 404 ⟨none, []⟩ ⟨none, none, [], [], [], []⟩ none
      (by decide)).2⟩⟩

theorem pickPreview_ne_empty (o : Option String) (u : String)
    (h : (match o with
          | some s => if s ≠ "" then some s else none
          | none => none) = some u) : u ≠ "" := by
  cases o with
  | none => simp at h
  | some s =>
    by_cases hs : s = ""
    · simp [hs] at h
    · simp [hs] at h
      rw [← h]
      exact hs

/-- CLAIM C6: the JSON preview-image projection keeps, per located entry, the
full URL when truthy else the preview URL when truthy, drops entries with
neither, and therefore contains no null or empty entries. -/
theorem C6_preview_projection (imgs : List PreviewImage) :
    previewImagesProj imgs =
      imgs.filterMap (fun im =>
        if truthyO im.full then im.full
        else if truthyO im.preview then im.preview else none) ∧
    ∀ u ∈ previewImagesProj imgs, u ≠ "" := by
  constructor
  · unfold previewImagesProj
    congr 1
    funext im
    cases hf : im.full with
    | none =>
      cases hp : im.preview with
      | none => simp [pyOrS, truthyO]
      | some s =>
        by_cases hs : s = "" <;> simp [pyOrS, truthyO, hs]
    | some s =>
      by_cases hs : s = ""
      · cases hp : im.preview with
        | none => simp [pyOrS, truthyO, hs]
        | some u => by_cases hu : u = "" <;> simp [pyOrS, truthyO, hs, hu]
      · simp [pyOrS, truthyO, hs]
  · intro u hu
    unfold previewImagesProj at hu
    obtain ⟨im, _, him⟩ := List.mem_filterMap.mp hu
    exact pickPreview_ne_empty (pyOrS im.full im.preview) u him

/-- Witness for C6 at a concrete entry list. -/
theorem C6_preview_projection_witness :
    "f" ∈ previewImagesProj [⟨some "p", some "f", none⟩, ⟨none, none, none⟩] ∧
    "f" ≠ "" :=
  ⟨by decide,
   (C6_preview_projection [⟨some "p", some "f", none⟩, ⟨none, none, none⟩]).2 "f" (by decide)⟩

/-- CLAIM C5: the resolved title is the stripped text of the primary heading
when non-empty, else the og:title content when that tag is present, else the
fallback title captured during search-result selection. -/
theorem C5_title_resolution (d : Doc) (fb : Option String) :
    (∀ t, d.h1 = some t → pyStrip t ≠ "" → resolveTitle d fb = some (pyStrip t)) ∧
    ((d.h1 = none ∨ ∃ t, d.h1 = some t ∧ pyStrip t = "") →
      (∀ c, d.ogTitle = some c → resolveTitle d fb = some c) ∧
      (d.ogTitle = none → resolveTitle d fb = fb)) := by
  constructor
  · intro t ht hne
    simp [resolveTitle, ht, hne]
  · intro hcase
    constructor
    · intro c hc
      rcases hcase with h1 | ⟨t, ht, hts⟩
      · simp [resolveTitle, h1, resolveTitleOg, hc]
      · simp [resolveTitle, ht, hts, resolveTitleOg, hc]
    · intro hog
      rcases hcase with h1 | ⟨t, ht, hts⟩
      · simp [resolveTitle, h1, resolveTitleOg, hog]
      · simp [resolveTitle, ht, hts, resolveTitleOg, hog]

/-- Witness for C5 at a concrete document whose heading strips to a non-empty
title. -/
theorem C5_title_resolution_witness :
    pyStrip " T " ≠ "" ∧
    resolveTitle ⟨some " T ", none, [], [], [], []⟩ none = some (pyStrip " T ") :=
  ⟨by decide,
   (C5_title_resolution ⟨some " T ", none, [], [], [], []⟩ none).1 " T " rfl (by decide)⟩

/-- CLAIM C4: the search parser yields one result per card in document order
without skipping (totality of the embedding models that the loop cannot
throw), the empty card list yields the empty result list, and every absent
sub-element yields none for its field while the card is still produced. -/
theorem C4_search_card_parsing (cards : List Card) (c : Card) :
    parseSearchCards [] = [] ∧
    (parseSearchCards cards).length = cards.length ∧
    parseSearchCards (c :: cards) = parseCard c :: parseSearchCards cards ∧
    (c.codeAnchor = none → (parseCard c).code = none ∧ (parseCard c).link = none) ∧
    (∀ a, c.codeAnchor = some a → a.href = none → (parseCard c).link = none) ∧
    (c.descAnchor = none → (parseCard c).title = none) ∧
    (c.mtAutoText = none → (parseCard c).date = none) ∧
    (c.studioAnchor = none → (parseCard c).studio = none) := by
  refine ⟨rfl, by simp [parseSearchCards], rfl, ?_, ?_, ?_, ?_, ?_⟩
  · intro h
    simp [parseCard, h]
  · intro a ha hh
    simp [parseCard, ha, hh]
  · intro h
    simp [parseCard, h]
  · intro h
    simp [parseCard, h]
  · intro h
    simp [parseCard, h]

/-- Witness for C4 at a concrete card with every sub-element absent. -/
theorem C4_search_card_parsing_witness :
    (parseCard ⟨none, none, none, none⟩).code = none ∧
    (parseCard ⟨none, none, none, none⟩).link = none ∧
    (parseCard ⟨none, none, none, none⟩).title = none ∧
    (parseCard ⟨none, none, none, none⟩).date = none ∧
    (parseCard ⟨none, none, none, none⟩).studio = none := by
  have h := C4_search_card_parsing [] ⟨none, none, none, none⟩
  exact ⟨(h.2.2.2.1 rfl).1, (h.2.2.2.1 rfl).2, h.2.2.2.2.2.1 rfl,
    h.2.2.2.2.2.2.1 rfl, h.2.2.2.2.2.2.2 rfl⟩

theorem clean_of_mem_stripMapFilter {α : Type} (f : α → String) (xs : List α) (t : String)
    (h : t ∈ (xs.map (fun a => pyStrip (f a))).filter (fun x => x ≠ "")) :
    t ≠ "" ∧ pyStrip t = t := by
  rw [List.mem_filter] at h
  obtain ⟨hm, hne⟩ := h
  obtain ⟨a, _, ha⟩ := List.mem_map.mp hm
  refine ⟨by simpa using hne, ?_⟩
  rw [← ha]
  exact pyStrip_idem (f a)

theorem labeled_values_clean (d : Doc) (label : String) :
    ∀ t ∈ labeled_values d label, t ≠ "" ∧ pyStrip t = t := by
  intro t ht
  unfold labeled_values at ht
  obtain ⟨p, _, hp⟩ := List.mem_flatMap.mp ht
  exact clean_of_mem_stripMapFilter (fun a => a.text) p.anchors t hp

theorem splitParts_clean (g : String) : ∀ t ∈ splitParts g, t ≠ "" ∧ pyStrip t = t := by
  intro t ht
  unfold splitParts at ht
  obtain ⟨p, hp, hpt⟩ := List.mem_map.mp ht
  rw [List.mem_filter] at hp
  obtain ⟨hpm, hpne⟩ := hp
  obtain ⟨q, _, hq⟩ := List.mem_map.mp hpm
  have hpe : p ≠ [] := by simpa using hpne
  constructor
  · intro h0
    exact hpe (by simpa using congrArg String.data (hpt.trans h0))
  · rw [← hpt]
    show (⟨pyStripL p⟩ : String) = ⟨p⟩
    rw [← hq, pyStripL_idem]

theorem genreCandidates_clean (d : Doc) :
    ∀ t ∈ genreCandidates d, t ≠ "" ∧ pyStrip t = t := by
  intro t ht
  unfold genreCandidates at ht
  by_cases h1 : genreTier1 d = []
  · rw [if_neg (by simpa using h1)] at ht
    by_cases h2 : genreTier2 d = []
    · rw [if_neg (by simpa using h2)] at ht
      unfold genreTier3 at ht
      cases hg : extract_label (pageText d) ["Genre(s)", "Genres", "Genre"] with
      | none => rw [hg] at ht; simp at ht
      | some g =>
        rw [hg] at ht
        change t ∈ (if g ≠ "" then splitParts g else []) at ht
        by_cases hge : g = ""
        · rw [if_neg (fun h => h hge)] at ht
          simp at ht
        · rw [if_pos hge] at ht
          exact splitParts_clean g t ht
    · rw [if_pos (by simpa using h2)] at ht
      unfold genreTier2 at ht
      exact clean_of_mem_stripMapFilter (fun a => a.text) d.tagAnchors t ht
  · rw [if_pos (by simpa using h1)] at ht
    unfold genreTier1 at ht
    rw [List.mem_filter] at ht
    exact labeled_values_clean d "Genre(s)" t ht.1

theorem actressCandidates_clean (d : Doc) :
    ∀ t ∈ actressCandidates d, t ≠ "" ∧ pyStrip t = t := by
  intro t ht
  unfold actressCandidates at ht
  by_cases h1 : actressTier1 d = []
  · rw [if_neg (by simpa using h1)] at ht
    by_cases h2 : actressTier2 d = []
    · rw [if_neg (by simpa using h2)] at ht
      unfold actressTier3 at ht
      cases hg : extract_label (pageText d) ["Idol(s)/Actress(es)", "Actress(es)", "Idol(s)"] with
      | none => rw [hg] at ht; simp at ht
      | some g =>
        rw [hg] at ht
        change t ∈ (if g ≠ "" then splitParts g else []) at ht
        by_cases hge : g = ""
        · rw [if_neg (fun h => h hge)] at ht
          simp at ht
        · rw [if_pos hge] at ht
          exact splitParts_clean g t ht
    · rw [if_pos (by simpa using h2)] at ht
      unfold actressTier2 at ht
      exact clean_of_mem_stripMapFilter (fun a => a.text)
        (d.allAnchors.filter (fun a => hrefHasPeoplePath (a.href.getD ""))) t ht
  · rw [if_pos (by simpa using h1)] at ht
    unfold actressTier1 at ht
    rw [List.mem_filter] at ht
    exact labeled_values_clean d "Idol(s)/Actress(es)" t ht.1

theorem sortedDedup_sorted (l : List String) :
    List.Sorted (fun a b : String => a ≤ b) (sortedDedup l) :=
  List.sorted_insertionSort _ _

theorem sortedDedup_nodup (l : List String) : (sortedDedup l).Nodup :=
  ((List.perm_insertionSort _ _).nodup_iff).mpr (List.nodup_dedup l)

theorem mem_sortedDedup (l : List String) (t : String) : t ∈ sortedDedup l ↔ t ∈ l :=
  ((List.perm_insertionSort _ _).mem_iff).trans List.mem_dedup

theorem sortedDedup_perm_eq (l m : List String) (h : l.Perm m) :
    sortedDedup l = sortedDedup m :=
  List.eq_of_perm_of_sorted
    (((List.perm_insertionSort _ _).trans h.dedup).trans (List.perm_insertionSort _ _).symm)
    (sortedDedup_sorted l) (sortedDedup_sorted m)

/-- CLAIM C1: the genre and actress extractions yield token lists with no
empty or whitespace-only entries, presented as the lexicographic sort of the
deduplicated candidate set (sorted, duplicate-free, same members), and the
result is invariant under any reordering of the collected candidates, so
extracting twice from one document yields identical ordered output. -/
theorem C1_list_extraction_clean_sorted (d : Doc) :
    (∀ t ∈ genreTokens d, t ≠ "" ∧ pyStrip t ≠ "") ∧
    List.Sorted (fun a b : String => a ≤ b) (genreTokens d) ∧
    (genreTokens d).Nodup ∧
    (∀ t, t ∈ genreTokens d ↔ t ∈ genreCandidates d) ∧
    (∀ l, l.Perm (genreCandidates d) → sortedDedup l = genreTokens d) ∧
    (∀ t ∈ actressTokens d, t ≠ "" ∧ pyStrip t ≠ "") ∧
    List.Sorted (fun a b : String => a ≤ b) (actressTokens d) ∧
    (actressTokens d).Nodup ∧
    (∀ t, t ∈ actressTokens d ↔ t ∈ actressCandidates d) ∧
    (∀ l, l.Perm (actressCandidates d) → sortedDedup l = actressTokens d) := by
  refine ⟨?_, sortedDedup_sorted _, sortedDedup_nodup _, fun t => mem_sortedDedup _ t,
    fun l hl => sortedDedup_perm_eq l _ hl,
    ?_, sortedDedup_sorted _, sortedDedup_nodup _, fun t => mem_sortedDedup _ t,
    fun l hl => sortedDedup_perm_eq l _ hl⟩
  · intro t ht
    obtain ⟨hne, hstr⟩ := genreCandidates_clean d t ((mem_sortedDedup _ t).mp ht)
    exact ⟨hne, by rw [hstr]; exact hne⟩
  · intro t ht
    obtain ⟨hne, hstr⟩ := actressCandidates_clean d t ((mem_sortedDedup _ t).mp ht)
    exact ⟨hne, by rw [hstr]; exact hne⟩

/-- Witness for C1 at a concrete document carrying a labeled genre block with
a duplicated anchor. -/
theorem C1_list_extraction_clean_sorted_witness :
    "Drama" ∈ genreTokens
      (⟨none, none, [⟨some "Genre(s)", [⟨none, " Drama "⟩, ⟨none, "Drama"⟩], []⟩],
        [], [], []⟩ : Doc) ∧
    ("Drama" ≠ "" ∧ pyStrip "Drama" ≠ "") ∧
    sortedDedup ["Drama", "Drama"] = genreTokens
      (⟨none, none, [⟨some "Genre(s)", [⟨none, " Drama "⟩, ⟨none, "Drama"⟩], []⟩],
        [], [], []⟩ : Doc) :=
  ⟨by decide,
   (C1_list_extraction_clean_sorted
      (⟨none, none, [⟨some "Genre(s)", [⟨none, " Drama "⟩, ⟨none, "Drama"⟩], []⟩],
        [], [], []⟩ : Doc)).1 "Drama" (by decide),
   (C1_list_extraction_clean_sorted
      (⟨none, none, [⟨some "Genre(s)", [⟨none, " Drama "⟩, ⟨none, "Drama"⟩], []⟩],
        [], [], []⟩ : Doc)).2.2.2.2.1 ["Drama", "Drama"] (by decide)⟩

/-- Witness for C8 at a concrete name containing a space and an invalid
character. -/
theorem C8_safe_filename_clean_witness :
    '_' ∈ (safe_filename "a b?").data ∧
    isInvalidFileChar '_' = false ∧ isPySpace '_' = false :=
  ⟨by decide, (C8_safe_filename_clean "a b?").1 '_' (by decide),
   (C8_safe_filename_clean "a b?").2.1 '_' (by decide)⟩

/-- Full-match semantics of the DVD ID fallback pattern (src/main.py line
359): two or more uppercase letters, an optional dash, two or more digits, an
optional dash, one or more digits. -/
def DvdPat (s : String) : Prop :=
  ∃ L d1 D d2 E : List Char,
    s.data = L ++ d1 ++ D ++ d2 ++ E ∧
    (∀ c ∈ L, 'A' ≤ c ∧ c ≤ 'Z') ∧ 2 ≤ L.length ∧
    (d1 = [] ∨ d1 = ['-']) ∧
    (∀ c ∈ D, c.isDigit = true) ∧ 2 ≤ D.length ∧
    (d2 = [] ∨ d2 = ['-']) ∧
    (∀ c ∈ E, c.isDigit = true) ∧ 1 ≤ E.length

/-- Full-match semantics of the Content ID fallback pattern as the program
compiles it (src/main.py line 364, with re.I): two or more ASCII letters of
either case followed by four or more digits. -/
def ContentPatCI (s : String) : Prop :=
  ∃ L D : List Char,
    s.data = L ++ D ∧
    (∀ c ∈ L, c.isAlpha = true) ∧ 2 ≤ L.length ∧
    (∀ c ∈ D, c.isDigit = true) ∧ 4 ≤ D.length

theorem digits_split3 (D : List Char) (hD : ∀ c ∈ D, c.isDigit = true) (h3 : 3 ≤ D.length) :
    ∃ D1 E : List Char, D = D1 ++ E ∧ (∀ c ∈ D1, c.isDigit = true) ∧ 2 ≤ D1.length ∧
      (∀ c ∈ E, c.isDigit = true) ∧ 1 ≤ E.length := by
  refine ⟨D.take (D.length - 1), D.drop (D.length - 1),
    (List.take_append_drop _ _).symm, ?_, ?_, ?_, ?_⟩
  · intro c hc; exact hD c (List.mem_of_mem_take hc)
  · rw [List.length_take]; omega
  · intro c hc; exact hD c (List.mem_of_mem_drop hc)
  · rw [List.length_drop]; omega

theorem dvdNumTail_shape (cs m : List Char) (h : dvdNumTail cs = some m) :
    ∃ D d2 E : List Char, m = D ++ d2 ++ E ∧
      (∀ c ∈ D, c.isDigit = true) ∧ 2 ≤ D.length ∧
      (d2 = [] ∨ d2 = ['-']) ∧
      (∀ c ∈ E, c.isDigit = true) ∧ 1 ≤ E.length := by
  have hDdig : ∀ c ∈ cs.takeWhile Char.isDigit, c.isDigit = true :=
    fun c hc => List.mem_takeWhile_imp hc
  simp only [dvdNumTail] at h
  split at h
  · exact absurd h (by simp)
  · rename_i hlen
    split at h
    · rename_i r2 hdrop
      have hEdig : ∀ c ∈ r2.takeWhile Char.isDigit, c.isDigit = true :=
        fun c hc => List.mem_takeWhile_imp hc
      split at h
      · rename_i hcond
        rw [Bool.and_eq_true, decide_eq_true_eq] at hcond
        refine ⟨cs.takeWhile Char.isDigit, ['-'], r2.takeWhile Char.isDigit,
          ?_, hDdig, by omega, Or.inr rfl, hEdig, hcond.1⟩
        rw [← Option.some_inj.mp h]
        simp
      · split at h
        · rename_i h3
          obtain ⟨D1, E, hDE, hd1, hd2, he1, he2⟩ :=
            digits_split3 (cs.takeWhile Char.isDigit) hDdig h3
          exact ⟨D1, [], E, by rw [← Option.some_inj.mp h, hDE]; simp, hd1, hd2,
            Or.inl rfl, he1, he2⟩
        · exact absurd h (by simp)
    · split at h
      · rename_i hcond
        rw [Bool.and_eq_true, decide_eq_true_eq] at hcond
        obtain ⟨D1, E, hDE, hd1, hd2, he1, he2⟩ :=
          digits_split3 (cs.takeWhile Char.isDigit) hDdig hcond.1
        exact ⟨D1, [], E, by rw [← Option.some_inj.mp h, hDE]; simp, hd1, hd2,
          Or.inl rfl, he1, he2⟩
      · exact absurd h (by simp)

theorem dvdMatchAt_pat (cs m : List Char) (h : dvdMatchAt cs = some m) :
    ∃ L d1 D d2 E : List Char,
      m = L ++ d1 ++ D ++ d2 ++ E ∧
      (∀ c ∈ L, 'A' ≤ c ∧ c ≤ 'Z') ∧ 2 ≤ L.length ∧
      (d1 = [] ∨ d1 = ['-']) ∧
      (∀ c ∈ D, c.isDigit = true) ∧ 2 ≤ D.length ∧
      (d2 = [] ∨ d2 = ['-']) ∧
      (∀ c ∈ E, c.isDigit = true) ∧ 1 ≤ E.length := by
  have hLup : ∀ c ∈ cs.takeWhile (fun c => 'A' ≤ c && c ≤ 'Z'), 'A' ≤ c ∧ c ≤ 'Z' := by
    intro c hc
    have := List.mem_takeWhile_imp hc
    rw [Bool.and_eq_true, decide_eq_true_eq, decide_eq_true_eq] at this
    exact this
  simp only [dvdMatchAt] at h
  split at h
  · exact absurd h (by simp)
  · rename_i hlen
    split at h
    · rename_i r2 hdrop
      obtain ⟨n, hn, hm⟩ := Option.map_eq_some'.mp h
      obtain ⟨D, d2, E, hnde, hD1, hD2, hd2, hE1, hE2⟩ := dvdNumTail_shape r2 n hn
      refine ⟨cs.takeWhile (fun c => 'A' ≤ c && c ≤ 'Z'), ['-'], D, d2, E,
        ?_, hLup, by omega, Or.inr rfl, hD1, hD2, hd2, hE1, hE2⟩
      rw [← hm, hnde]
      simp
    · obtain ⟨n, hn, hm⟩ := Option.map_eq_some'.mp h
      obtain ⟨D, d2, E, hnde, hD1, hD2, hd2, hE1, hE2⟩ := dvdNumTail_shape _ n hn
      refine ⟨cs.takeWhile (fun c => 'A' ≤ c && c ≤ 'Z'), [], D, d2, E,
        ?_, hLup, by omega, Or.inl rfl, hD1, hD2, hd2, hE1, hE2⟩
      rw [← hm, hnde]
      simp

theorem contentMatchAt_pat (cs m : List Char) (h : contentMatchAt cs = some m) :
    ∃ L D : List Char, m = L ++ D ∧
      (∀ c ∈ L, c.isAlpha = true) ∧ 2 ≤ L.length ∧
      (∀ c ∈ D, c.isDigit = true) ∧ 4 ≤ D.length := by
  simp only [contentMatchAt] at h
  split at h
  · exact absurd h (by simp)
  · rename_i hl
    split at h
    · exact absurd h (by simp)
    · rename_i hd
      split at h
      · refine ⟨cs.takeWhile Char.isAlpha,
          ((cs.drop (cs.takeWhile Char.isAlpha).length).takeWhile Char.isDigit),
          (Option.some_inj.mp h).symm,
          fun c hc => List.mem_takeWhile_imp hc, by omega,
          fun c hc => List.mem_takeWhile_imp hc, by omega⟩
      · exact absurd h (by simp)

theorem searchWithAux_found (matchAt : List Char → Option (List Char)) :
    ∀ (cs : List Char) (prev : Option Char) (m : List Char),
      searchWithAux matchAt cs prev = some m → ∃ cs', matchAt cs' = some m := by
  intro cs
  induction cs with
  | nil => intro prev m h; simp [searchWithAux] at h
  | cons c rest ih =>
    intro prev m h
    rw [searchWithAux] at h
    split at h
    · rename_i m2 hm2
      split at hm2
      · exact ⟨c :: rest, hm2.trans (Option.some_inj.mpr (Option.some_inj.mp h))⟩
      · exact absurd hm2 (by simp)
    · exact ih (some c) m h

theorem dvdSearch_pat (t v : String) (h : dvdSearch t = some v) : DvdPat v := by
  unfold dvdSearch at h
  obtain ⟨m, hm, hv⟩ := Option.map_eq_some'.mp h
  obtain ⟨cs', hcs'⟩ := searchWithAux_found dvdMatchAt t.data none m hm
  obtain ⟨L, d1, D, d2, E, hdec, h1, h2, h3, h4, h5, h6, h7, h8⟩ :=
    dvdMatchAt_pat cs' m hcs'
  exact ⟨L, d1, D, d2, E, by rw [← hv]; exact hdec, h1, h2, h3, h4, h5, h6, h7, h8⟩

theorem contentSearch_pat (t v : String) (h : contentSearch t = some v) : ContentPatCI v := by
  unfold contentSearch at h
  obtain ⟨m, hm, hv⟩ := Option.map_eq_some'.mp h
  obtain ⟨cs', hcs'⟩ := searchWithAux_found contentMatchAt t.data none m hm
  obtain ⟨L, D, hdec, h1, h2, h3, h4⟩ := contentMatchAt_pat cs' m hcs'
  exact ⟨L, D, by rw [← hv]; exact hdec, h1, h2, h3, h4⟩

theorem normalizeGenres_dvdId (m : Meta) : (normalizeGenres m).dvdId = m.dvdId := by
  unfold normalizeGenres
  split
  · split <;> rfl
  · rfl

theorem normalizeGenres_contentId (m : Meta) : (normalizeGenres m).contentId = m.contentId := by
  unfold normalizeGenres
  split
  · split <;> rfl
  · rfl

theorem normField_strip_ne (o : Option String) (v : String) (h : normField o = some v) :
    pyStrip v ≠ "" := by
  cases o with
  | none => simp [normField] at h
  | some w =>
    by_cases hw : pyStrip w = ""
    · simp [normField, hw] at h
    · simp [normField, hw] at h
      rw [← h]
      exact hw

theorem normField_ne (o : Option String) (v : String) (h : normField o = some v) :
    v ≠ "" :=
  fun h0 => normField_strip_ne o v h (by rw [h0]; rfl)

theorem applyIdFallbacks_dvdId_some (d : Doc) (m : Meta) (v : String)
    (hv : m.dvdId = some v) (hne : v ≠ "") :
    (applyIdFallbacks d m).dvdId = some v := by
  have ht : truthyO m.dvdId = true := by rw [hv]; simpa [truthyO] using hne
  simp only [applyIdFallbacks, ht, if_true]
  split
  · exact hv
  · split <;> simp [hv]

theorem applyIdFallbacks_dvdId_none (d : Doc) (m : Meta) (hv : m.dvdId = none) :
    (applyIdFallbacks d m).dvdId = dvdSearch (pageAllText d) := by
  have ht : truthyO m.dvdId = false := by rw [hv]; rfl
  simp only [applyIdFallbacks, ht, Bool.false_eq_true, if_false]
  rcases hs : dvdSearch (pageAllText d) with _ | w
  · simp only [hs]
    split
    · exact hv
    · split <;> simp [hv]
  · simp only [hs]
    split
    · rfl
    · split <;> rfl

theorem applyIdFallbacks_contentId_some (d : Doc) (m : Meta) (v : String)
    (hv : m.contentId = some v) (hne : v ≠ "") :
    (applyIdFallbacks d m).contentId = some v := by
  have ht : truthyO m.contentId = true := by rw [hv]; simpa [truthyO] using hne
  simp only [applyIdFallbacks]
  split
  · simp [ht, hv]
  · rcases hs : dvdSearch (pageAllText d) with _ | w <;>
      simp [hs, hv, truthyO, hne]

theorem applyIdFallbacks_contentId_none (d : Doc) (m : Meta) (hv : m.contentId = none) :
    (applyIdFallbacks d m).contentId = contentSearch (pageAllText d) := by
  have ht : truthyO m.contentId = false := by rw [hv]; rfl
  simp only [applyIdFallbacks]
  rcases hc : contentSearch (pageAllText d) with _ | u
  · split
    · simp [ht, hc, hv]
    · rcases hs : dvdSearch (pageAllText d) with _ | w <;> simp [hs, ht, hc, hv]
  · split
    · simp [ht, hc]
    · rcases hs : dvdSearch (pageAllText d) with _ | w <;> simp [hs, ht, hc]

/-- CLAIM C3 (amended): the schema-specific tier-3 fallback for DVD ID and
Content ID runs only when the labeled-element scan and the regex tier, after
normalization, produced nothing, and leaves the field at the search result;
every DVD ID the fallback yields matches the uppercase dash-code pattern, and
every Content ID it yields matches the letter-run-digit-run pattern compiled
case-insensitively (so it may contain uppercase letters). -/
theorem C3_id_fallback_amended (d : Doc) (fb : Option String) :
    (∀ v, (normalizeScalars (rawMeta d fb)).dvdId = some v →
      (buildMeta d fb).dvdId = some v) ∧
    ((normalizeScalars (rawMeta d fb)).dvdId = none →
      (buildMeta d fb).dvdId = dvdSearch (pageAllText d)) ∧
    (∀ v, (normalizeScalars (rawMeta d fb)).contentId = some v →
      (buildMeta d fb).contentId = some v) ∧
    ((normalizeScalars (rawMeta d fb)).contentId = none →
      (buildMeta d fb).contentId = contentSearch (pageAllText d)) ∧
    (∀ t v, dvdSearch t = some v → DvdPat v) ∧
    (∀ t v, contentSearch t = some v → ContentPatCI v) := by
  have hgd := normalizeGenres_dvdId (normalizeScalars (rawMeta d fb))
  have hgc := normalizeGenres_contentId (normalizeScalars (rawMeta d fb))
  refine ⟨?_, ?_, ?_, ?_, dvdSearch_pat, contentSearch_pat⟩
  · intro v hv
    have hne : v ≠ "" := normField_ne (rawMeta d fb).dvdId v hv
    exact applyIdFallbacks_dvdId_some d _ v (hgd.trans hv) hne
  · intro hv
    exact applyIdFallbacks_dvdId_none d _ (hgd.trans hv)
  · intro v hv
    have hne : v ≠ "" := normField_ne (rawMeta d fb).contentId v hv
    exact applyIdFallbacks_contentId_some d _ v (hgc.trans hv) hne
  · intro hv
    exact applyIdFallbacks_contentId_none d _ (hgc.trans hv)

/-- Counterexample to C3 as stated: on a document whose whole text is
ABC1234, the labeled and regex tiers produce nothing for Content ID, the
tier-3 fallback runs, and the Content ID it yields contains uppercase
letters, refuting that the fallback never yields uppercase. -/
theorem C3_content_uppercase_counterexample :
    (normalizeScalars
      (rawMeta (⟨none, none, [], [], [], ["ABC1234"]⟩ : Doc) none)).contentId = none ∧
    (buildMeta (⟨none, none, [], [], [], ["ABC1234"]⟩ : Doc) none).contentId =
      some "ABC1234" ∧
    'A' ∈ "ABC1234".data ∧ 'A'.isUpper = true :=
  ⟨by decide, by decide, by decide, by decide⟩

/-- Witness for the amended C3 at the concrete ABC1234 document. -/
theorem C3_id_fallback_amended_witness :
    (normalizeScalars
      (rawMeta (⟨none, none, [], [], [], ["ABC1234"]⟩ : Doc) none)).contentId = none ∧
    (buildMeta (⟨none, none, [], [], [], ["ABC1234"]⟩ : Doc) none).contentId =
      contentSearch (pageAllText (⟨none, none, [], [], [], ["ABC1234"]⟩ : Doc)) ∧
    ContentPatCI "ABC1234" :=
  ⟨by decide,
   (C3_id_fallback_amended (⟨none, none, [], [], [], ["ABC1234"]⟩ : Doc) none).2.2.2.1
     (by decide),
   (C3_id_fallback_amended (⟨none, none, [], [], [], ["ABC1234"]⟩ : Doc) none).2.2.2.2.2
     "ABC1234" "ABC1234" (by decide)⟩

theorem string_eq_of_data (s u : String) (h : s.data = u.data) : s = u :=
  congrArg String.mk h

theorem splitRunsAux_noSep (p : Char → Bool) (xs ys cur : List Char)
    (h : ∀ c ∈ xs, p c = false) :
    splitRunsAux p (xs ++ ys) cur false = splitRunsAux p ys (xs.reverse ++ cur) false := by
  induction xs generalizing cur with
  | nil => simp
  | cons c xs ih =>
    have hc : p c = false := h c (List.mem_cons_self _ _)
    show splitRunsAux p (c :: (xs ++ ys)) cur false = _
    simp only [splitRunsAux, hc, Bool.false_eq_true, if_false]
    rw [ih (c :: cur) (fun a ha => h a (List.mem_cons_of_mem _ ha))]
    simp

theorem pyStripL_all_space (w : List Char) (hw : ∀ c ∈ w, isPySpace c = true) :
    pyStripL w = [] := by
  unfold pyStripL stripByL
  rw [List.dropWhile_eq_nil_iff.mpr (fun c hc => hw c hc)]
  simp [List.rdropWhile]

theorem pyStripL_space_append (w xs : List Char) (hw : ∀ c ∈ w, isPySpace c = true) :
    pyStripL (w ++ xs) = pyStripL xs := by
  unfold pyStripL stripByL
  rw [List.dropWhile_append, List.dropWhile_eq_nil_iff.mpr (fun c hc => hw c hc)]
  simp

theorem joinSplit_aux : ∀ (l : List String) (cur : List Char),
    (∀ t ∈ l, t ≠ "" ∧ (∀ c ∈ t.data, isSepChar c = false) ∧ pyStrip t = t) →
    (∀ c ∈ cur, isPySpace c = true) →
    (((splitRunsAux isSepChar (joinWithL [',', ' '] (l.map String.data)) cur false).map
        pyStripL).filter (fun q => q ≠ [])).map (fun q => (⟨q⟩ : String)) = l := by
  intro l
  induction l with
  | nil =>
    intro cur hok hcur
    have h0 : pyStripL cur.reverse = [] :=
      pyStripL_all_space _ (fun c hc => hcur c (List.mem_reverse.mp hc))
    simp [joinWithL, splitRunsAux, h0]
  | cons t rest ih =>
    intro cur hok hcur
    obtain ⟨htne, htsep, htstrip⟩ := hok t (List.mem_cons_self _ _)
    have htdata : pyStripL t.data = t.data := congrArg String.data htstrip
    have htd_ne : t.data ≠ [] := fun h0 => htne (string_eq_of_data t "" h0)
    have hrevcur : ∀ c ∈ cur.reverse, isPySpace c = true :=
      fun c hc => hcur c (List.mem_reverse.mp hc)
    cases rest with
    | nil =>
      have habs := splitRunsAux_noSep isSepChar t.data [] cur htsep
      rw [List.append_nil] at habs
      simp only [List.map_cons, List.map_nil, joinWithL, habs, splitRunsAux]
      have hstrip2 : pyStripL (cur.reverse ++ t.data) = t.data := by
        rw [pyStripL_space_append cur.reverse t.data hrevcur, htdata]
      simp only [List.reverse_append, List.reverse_reverse]
      simp [hstrip2, htd_ne]
    | cons u rest2 =>
      have hjoin : joinWithL [',', ' '] ((t :: u :: rest2).map String.data)
          = t.data ++ (',' :: ' ' :: joinWithL [',', ' '] ((u :: rest2).map String.data)) := by
        simp only [List.map_cons, joinWithL]
        simp [List.append_assoc]
      rw [hjoin, splitRunsAux_noSep isSepChar t.data _ cur htsep]
      have hcomma : splitRunsAux isSepChar
          (',' :: ' ' :: joinWithL [',', ' '] ((u :: rest2).map String.data))
          (t.data.reverse ++ cur) false
          = (t.data.reverse ++ cur).reverse ::
            splitRunsAux isSepChar
              (' ' :: joinWithL [',', ' '] ((u :: rest2).map String.data)) [] true := by
        simp [splitRunsAux, isSepChar]
      have hspace : splitRunsAux isSepChar
          (' ' :: joinWithL [',', ' '] ((u :: rest2).map String.data)) [] true
          = splitRunsAux isSepChar
              (joinWithL [',', ' '] ((u :: rest2).map String.data)) [' '] false := by
        simp [splitRunsAux, isSepChar]
      rw [hcomma, hspace]
      have hstrip2 : pyStripL ((t.data.reverse ++ cur).reverse) = t.data := by
        rw [List.reverse_append, List.reverse_reverse,
          pyStripL_space_append cur.reverse t.data hrevcur, htdata]
      have htail := ih [' '] (fun s hs => hok s (List.mem_cons_of_mem _ hs))
        (by intro c hc; simp at hc; rw [hc]; rfl)
      simp only [List.map_cons, List.filter_cons, hstrip2]
      rw [if_pos (by simpa using htd_ne)]
      simp only [List.map_cons] at htail ⊢
      rw [htail]

/-- Models the round-trip composition the program performs on the genre and
actress fields: the comma-space join of the sorted set is later split back by
to_list at JSON-projection time. -/
theorem to_list_joinCommaSpace (l : List String)
    (hok : ∀ t ∈ l, t ≠ "" ∧ (∀ c ∈ t.data, isSepChar c = false) ∧ pyStrip t = t) :
    to_list (some (joinCommaSpace l)) = l := by
  cases l with
  | nil => rfl
  | cons t rest =>
    obtain ⟨htne, _, _⟩ := hok t (List.mem_cons_self _ _)
    have htd_ne : t.data ≠ [] := fun h0 => htne (string_eq_of_data t "" h0)
    have hne : joinCommaSpace (t :: rest) ≠ "" := by
      intro h0
      have hd := congrArg String.data h0
      cases rest with
      | nil => exact htd_ne (by simpa [joinCommaSpace, joinWithL] using hd)
      | cons u rest2 =>
        simp only [joinCommaSpace, joinWithL, List.map_cons] at hd
        rcases List.append_eq_nil.mp (List.append_eq_nil.mp hd).1 with ⟨h1, _⟩
        exact htd_ne h1
    show to_list (some (joinCommaSpace (t :: rest))) = t :: rest
    show (if joinCommaSpace (t :: rest) = "" then []
          else splitParts (joinCommaSpace (t :: rest))) = t :: rest
    rw [if_neg hne]
    unfold splitParts splitRuns
    exact joinSplit_aux (t :: rest) [] hok (by intro c hc; simp at hc)

/-- CLAIM C10: for a finite set of non-empty separator-free stripped strings,
splitting the comma-space join of its lexicographically sorted elements with
the list-projection splitter returns exactly those sorted elements. -/
theorem C10_join_split_roundtrip (S : Finset String)
    (h : ∀ t ∈ S, t ≠ "" ∧ (∀ c ∈ t.data, isSepChar c = false) ∧ pyStrip t = t) :
    to_list (some (joinCommaSpace (S.sort (fun a b : String => a ≤ b)))) =
      S.sort (fun a b : String => a ≤ b) :=
  to_list_joinCommaSpace _ (fun t ht => h t ((Finset.mem_sort _).mp ht))

/-- Witness for C10 at a concrete two-element set. -/
theorem C10_join_split_roundtrip_witness :
    (∀ t ∈ ({"ab", "cd"} : Finset String),
      t ≠ "" ∧ (∀ c ∈ t.data, isSepChar c = false) ∧ pyStrip t = t) ∧
    to_list (some (joinCommaSpace
      (({"ab", "cd"} : Finset String).sort (fun a b : String => a ≤ b)))) =
      ({"ab", "cd"} : Finset String).sort (fun a b : String => a ≤ b) :=
  ⟨by decide, C10_join_split_roundtrip ({"ab", "cd"} : Finset String) (by decide)⟩

end Javdb
